import Mathlib

/-!
# Verification of the interactive-comments-section core

Shallow embedding of the repository's comment-tree store (`js/app.js`,
`js/utils.js`) and persistence gateway (`js/storage.js`), with theorems
settling the frozen claims about the natural-language specification.

Two models are developed:

* a typed model of the comment tree and the store operations of
  `CommentsApp` (`findComment`, `handleAddComment`, `handleCreateReply`,
  `handleVote`, `handleUpdateComment`, `removeComment`,
  `handleDeleteConfirm`);
* a JSON-value model (`JVal`) of the persistence gateway
  (`Storage.validateData`, `Storage.getData`, `Storage.saveData`,
  `Storage.importData`, `Storage.loadInitialData` and the composite
  `CommentsApp.loadData`), faithful to JavaScript truthiness and
  `typeof`/`Array.isArray` checks.

JavaScript in-place mutation through the reference returned by
`findComment` is translated as a functional update at the first node in
`findComment`'s scan order, which is exact here because every node occurs
at a single position in the tree.
-/

set_option autoImplicit false

/-- A user record (`{ image: {png, webp}, username }` in the source data). -/
structure CUser where
  username : String
  png : String
  webp : String
deriving Repr, DecidableEq

/-- A comment object as built by `handleAddComment` / `handleCreateReply` and
the seed data: `id`, `content`, `createdAt`, `score`, `user`, optional
`replyingTo` (present only on replies) and optional `replies` array
(`none` models an absent `replies` property, `some rs` a present array). -/
inductive Comment where
  | mk : Int → String → String → Int → CUser → Option String → Option (List Comment) → Comment
deriving Repr

/-- The `id` field of a comment. -/
def Comment.id : Comment → Int
  | .mk i _ _ _ _ _ _ => i

/-- The `content` field of a comment. -/
def Comment.content : Comment → String
  | .mk _ c _ _ _ _ _ => c

/-- The `createdAt` field of a comment. -/
def Comment.createdAt : Comment → String
  | .mk _ _ d _ _ _ _ => d

/-- The `score` field of a comment. -/
def Comment.score : Comment → Int
  | .mk _ _ _ s _ _ _ => s

/-- The `user` field of a comment. -/
def Comment.user : Comment → CUser
  | .mk _ _ _ _ u _ _ => u

/-- The `replyingTo` field of a comment (`none` = property absent). -/
def Comment.replyingTo : Comment → Option String
  | .mk _ _ _ _ _ r _ => r

/-- The `replies` field of a comment (`none` = property absent). -/
def Comment.replies : Comment → Option (List Comment)
  | .mk _ _ _ _ _ _ rs => rs

/-- `comment.score = v` (in-place score assignment). -/
def Comment.withScore : Comment → Int → Comment
  | .mk i c d _ u r rs, s => .mk i c d s u r rs

/-- `comment.content = v` (in-place content assignment). -/
def Comment.withContent : Comment → String → Comment
  | .mk i _ d s u r rs, c => .mk i c d s u r rs

/-- `comment.replies = v` (in-place replies assignment). -/
def Comment.withReplies : Comment → Option (List Comment) → Comment
  | .mk i c d s u r _, rs => .mk i c d s u r rs

/-- `Utils.generateId`: `Date.now() + Math.floor(Math.random() * 1000)`.
`now` is the clock reading in epoch milliseconds and `rand` the random
draw (an integer in `[0, 999]`). -/
def generateId (now : Int) (rand : Nat) : Int :=
  now + rand

/-- `new Date(n).toISOString()`: the platform's date rendering, modelled as
an injective rendering of the epoch-millisecond value. -/
def isoDate (n : Int) : String :=
  toString n

/-- `CommentsApp.findComment`: scan the top-level comments in order; for
each, first compare its own `id`, then scan its `replies` array (when the
property is present) — nothing deeper is inspected. -/
def findComment (comments : List Comment) (commentId : Int) : Option Comment :=
  match comments with
  | [] => none
  | c :: rest =>
    if c.id == commentId then some c
    else
      match c.replies with
      | some rs =>
        match rs.find? (fun r => r.id == commentId) with
        | some r => some r
        | none => findComment rest commentId
      | none => findComment rest commentId

/-- Replace the first element of `rs` whose `id` matches by its image
under `f` (the in-place mutation of a reply found by `findComment`). -/
def updateFirst (rs : List Comment) (commentId : Int) (f : Comment → Comment) : List Comment :=
  match rs with
  | [] => []
  | r :: rest =>
    if r.id == commentId then f r :: rest
    else r :: updateFirst rest commentId f

/-- Apply `f` at the node `findComment` locates (same scan order:
top-level id first, then that comment's replies, then the next top-level
comment). Translates the JavaScript in-place mutation of the object
reference returned by `findComment`. -/
def updateFound (comments : List Comment) (commentId : Int) (f : Comment → Comment) : List Comment :=
  match comments with
  | [] => []
  | c :: rest =>
    if c.id == commentId then f c :: rest
    else
      match c.replies with
      | some rs =>
        if rs.any (fun r => r.id == commentId) then
          c.withReplies (some (updateFirst rs commentId f)) :: rest
        else c :: updateFound rest commentId f
      | none => c :: updateFound rest commentId f

/-- `CommentsApp.handleAddComment` (the store part): push a new comment
with a fresh id, `score: 0` and `replies: []` onto the end of
`data.comments`. -/
def handleAddComment (comments : List Comment) (content : String) (user : CUser)
    (now : Int) (rand : Nat) : List Comment :=
  comments ++ [Comment.mk (generateId now rand) content (isoDate now) 0 user none (some [])]

/-- The reply object built by `handleCreateReply`: note it carries no
`replies` property. -/
def mkNewReply (content : String) (user : CUser) (replyingTo : String)
    (now : Int) (rand : Nat) : Comment :=
  Comment.mk (generateId now rand) content (isoDate now) 0 user (some replyingTo) none

/-- `CommentsApp.handleCreateReply`: look the parent up with
`findComment` (which also resolves replies); abort when absent; otherwise
initialise `parent.replies` to `[]` when the property is missing and push
the new reply onto its end. -/
def handleCreateReply (comments : List Comment) (parentId : Int) (replyingTo content : String)
    (user : CUser) (now : Int) (rand : Nat) : List Comment :=
  match findComment comments parentId with
  | none => comments
  | some _ =>
    updateFound comments parentId
      (fun p => p.withReplies (some (p.replies.getD [] ++ [mkNewReply content user replyingTo now rand])))

/-- `CommentsApp.handleVote` (the store part): find the comment; abort
when absent; `'upvote'` does `score += 1`, `'downvote'` does
`score = Math.max(0, score - 1)`; any other action string changes
nothing. -/
def handleVote (comments : List Comment) (commentId : Int) (action : String) : List Comment :=
  match findComment comments commentId with
  | none => comments
  | some _ =>
    if action == "upvote" then
      updateFound comments commentId (fun c => c.withScore (c.score + 1))
    else if action == "downvote" then
      updateFound comments commentId (fun c => c.withScore (max 0 (c.score - 1)))
    else comments

/-- `CommentsApp.handleUpdateComment` (the store part): find the comment;
abort when absent; replace its `content` in place. -/
def handleUpdateComment (comments : List Comment) (commentId : Int) (content : String) :
    List Comment :=
  match findComment comments commentId with
  | none => comments
  | some _ => updateFound comments commentId (fun c => c.withContent content)

/-- `findIndex` by id followed by `splice(index, 1)`: drop the first
element whose `id` matches (identity when no element matches). -/
def removeFirstById (l : List Comment) (commentId : Int) : List Comment :=
  match l with
  | [] => []
  | c :: rest =>
    if c.id == commentId then rest
    else c :: removeFirstById rest commentId

/-- The second pass of `CommentsApp.removeComment`: scan every top-level
comment's `replies` array in order and splice out the first match
(`findIndex` + `splice` on the first reply list that contains the id). -/
def removeFromReplies (comments : List Comment) (commentId : Int) : List Comment :=
  match comments with
  | [] => []
  | c :: rest =>
    match c.replies with
    | some rs =>
      if rs.any (fun r => r.id == commentId) then
        c.withReplies (some (removeFirstById rs commentId)) :: rest
      else c :: removeFromReplies rest commentId
    | none => c :: removeFromReplies rest commentId

/-- `CommentsApp.removeComment`: `findIndex` over the top-level sequence
and splice when found (`index !== -1`); otherwise fall through to the
replies scan. -/
def removeComment (comments : List Comment) (commentId : Int) : List Comment :=
  if comments.any (fun c => c.id == commentId) then removeFirstById comments commentId
  else removeFromReplies comments commentId

/-- `CommentsApp.handleDeleteConfirm` (the store part): `0` is falsy in
JavaScript, so `if (!this.deleteTargetId) return;` aborts on id `0`; then
the guard `findComment` aborts on an absent id; otherwise
`removeComment` runs. -/
def handleDeleteConfirm (comments : List Comment) (deleteTargetId : Int) : List Comment :=
  if deleteTargetId == 0 then comments
  else
    match findComment comments deleteTargetId with
    | none => comments
    | some _ => removeComment comments deleteTargetId

/-- The `currentUser` of `Storage.getInitialData` (the typed view). -/
def currentUserSeed : CUser :=
  ⟨"juliusomo", "./images/avatars/image-juliusomo.png", "./images/avatars/image-juliusomo.webp"⟩

/-- Seeded top-level comment 1 of `Storage.getInitialData`. -/
def seedComment1 (now : Int) : Comment :=
  Comment.mk 1
    "Impressive! Though it seems the drag feature could be improved. But overall it looks incredible. You've nailed the design and the responsiveness at various breakpoints works really well."
    (isoDate (now - 30 * 24 * 60 * 60 * 1000)) 12
    ⟨"amyrobson", "./images/avatars/image-amyrobson.png", "./images/avatars/image-amyrobson.webp"⟩
    none (some [])

/-- Seeded reply 3 of `Storage.getInitialData` (no `replies` property). -/
def seedReply3 (now : Int) : Comment :=
  Comment.mk 3
    "If you're still new, I'd recommend focusing on the fundamentals of HTML, CSS, and JS before considering React. It's very tempting to jump ahead but lay a solid foundation first."
    (isoDate (now - 7 * 24 * 60 * 60 * 1000)) 4
    ⟨"ramsesmiron", "./images/avatars/image-ramsesmiron.png", "./images/avatars/image-ramsesmiron.webp"⟩
    (some "maxblagun") none

/-- Seeded reply 4 of `Storage.getInitialData` (no `replies` property). -/
def seedReply4 (now : Int) : Comment :=
  Comment.mk 4
    "I couldn't agree more with this. Everything moves so fast and it always seems like everyone knows the newest library/framework. But the fundamentals are what stay constant."
    (isoDate (now - 2 * 24 * 60 * 60 * 1000)) 2
    currentUserSeed
    (some "ramsesmiron") none

/-- Seeded top-level comment 2 of `Storage.getInitialData`, owning replies
3 and 4. -/
def seedComment2 (now : Int) : Comment :=
  Comment.mk 2
    "Woah, your project looks awesome! How long have you been coding for? I'm still new, but think I want to dive into React as well soon. Perhaps you can give me an insight on where I can learn React? Thanks!"
    (isoDate (now - 14 * 24 * 60 * 60 * 1000)) 5
    ⟨"maxblagun", "./images/avatars/image-maxblagun.png", "./images/avatars/image-maxblagun.webp"⟩
    none
    (some [seedReply3 now, seedReply4 now])

/-- `Storage.getInitialData` (the typed view of its `comments` array):
two top-level comments (ids 1 and 2); comment 2 owns replies with ids 3
and 4; the seeded replies carry no `replies` property. -/
def seedComments (now : Int) : List Comment :=
  [seedComment1 now, seedComment2 now]

mutual

/-- Total node count of a comment subtree (the comment itself plus every
node nested below it, at any depth). -/
def commentSize : Comment → Nat
  | .mk _ _ _ _ _ _ none => 1
  | .mk _ _ _ _ _ _ (some rs) => 1 + commentsSize rs

/-- Total node count of a comment forest, at any depth. -/
def commentsSize : List Comment → Nat
  | [] => 0
  | c :: cs => commentSize c + commentsSize cs

end

mutual

/-- Does a node with this id occur anywhere in the subtree, at any depth? -/
def occursInComment (commentId : Int) : Comment → Bool
  | .mk i _ _ _ _ _ none => i == commentId
  | .mk i _ _ _ _ _ (some rs) => i == commentId || occursInComments commentId rs

/-- Does a node with this id occur anywhere in the forest, at any depth? -/
def occursInComments (commentId : Int) : List Comment → Bool
  | [] => false
  | c :: cs => occursInComment commentId c || occursInComments commentId cs

end

/-- Does a node with this id occur in the two levels `findComment`
actually scans (top-level comments and their immediate replies)? -/
def occursShallow (comments : List Comment) (commentId : Int) : Bool :=
  comments.any (fun c => c.id == commentId || (c.replies.getD []).any (fun r => r.id == commentId))

/-- A top-level comment is flat when none of its immediate replies
carries a `replies` property of its own. -/
def replyFlat (c : Comment) : Bool :=
  (c.replies.getD []).all (fun r => r.replies.isNone)

/-- The two-level tree shape of the specification's data model: no reply
carries a `replies` property, hence nothing is nested beyond depth 2. -/
def twoLevel (comments : List Comment) : Bool :=
  comments.all replyFlat

/-- All ids visible in the two-level scan, in scan order. -/
def shallowIds (comments : List Comment) : List Int :=
  comments.flatMap (fun c => c.id :: (c.replies.getD []).map Comment.id)

/-- Every score in the two visible levels is non-negative. -/
def scoresNonneg (comments : List Comment) : Prop :=
  ∀ c ∈ comments, 0 ≤ c.score ∧ ∀ r ∈ c.replies.getD [], 0 ≤ r.score

/-- The store operations a UI session can trigger, with the clock reading
and random draw of each id-allocating operation made explicit. -/
inductive Op where
  | addComment (content : String) (user : CUser) (now : Int) (rand : Nat)
  | addReply (parentId : Int) (replyingTo content : String) (user : CUser) (now : Int) (rand : Nat)
  | update (commentId : Int) (content : String)
  | vote (commentId : Int) (action : String)
  | remove (commentId : Int)

/-- Run one operation through the corresponding `CommentsApp` handler. -/
def applyOp (comments : List Comment) : Op → List Comment
  | .addComment content user now rand => handleAddComment comments content user now rand
  | .addReply parentId replyingTo content user now rand =>
      handleCreateReply comments parentId replyingTo content user now rand
  | .update commentId content => handleUpdateComment comments commentId content
  | .vote commentId action => handleVote comments commentId action
  | .remove commentId => handleDeleteConfirm comments commentId

/-- Run a sequence of operations in order. -/
def applyOps (comments : List Comment) : List Op → List Comment
  | [] => comments
  | op :: rest => applyOps (applyOp comments op) rest

/-- An operation is reply-safe in a state when, if it is an `addReply`,
its `parentId` matches no immediate reply of any top-level comment (so
`findComment` can only resolve it to a top-level comment or to nothing). -/
def opSafe (comments : List Comment) : Op → Prop
  | .addReply parentId _ _ _ _ _ =>
      (comments.any (fun c => (c.replies.getD []).any (fun r => r.id == parentId))) = false
  | _ => True

/-- Every operation of the trace is reply-safe in the state it runs in. -/
def safeTrace (comments : List Comment) : List Op → Prop
  | [] => True
  | op :: rest => opSafe comments op ∧ safeTrace (applyOp comments op) rest

/-- Modelled from the spec: `addReply` "appends to that parent's reply
sequence, preserving insertion order" — attach the reply at the end of
the reply sequence of the first top-level comment carrying `parentId`. -/
def specAttachTop (comments : List Comment) (parentId : Int) (r : Comment) : List Comment :=
  match comments with
  | [] => []
  | c :: rest =>
    if c.id == parentId then c.withReplies (some (c.replies.getD [] ++ [r])) :: rest
    else c :: specAttachTop rest parentId r

/-- A JSON-ish JavaScript value as handled by `Storage`: `undefined` models
the `undefined` produced by a missing property. -/
inductive JVal where
  | null
  | undefined
  | bool (b : Bool)
  | num (n : Int)
  | str (s : String)
  | arr (elems : List JVal)
  | obj (fields : List (String × JVal))

/-- JavaScript truthiness: `null`, `undefined`, `false`, `0` and `""` are
falsy; every array and object is truthy. -/
def truthy : JVal → Bool
  | .null => false
  | .undefined => false
  | .bool b => b
  | .num n => n != 0
  | .str s => s != ""
  | .arr _ => true
  | .obj _ => true

/-- `typeof v === 'object'`: true for objects, arrays and `null`. -/
def typeofIsObject : JVal → Bool
  | .null => true
  | .arr _ => true
  | .obj _ => true
  | _ => false

/-- `Array.isArray(v)`. -/
def isArray : JVal → Bool
  | .arr _ => true
  | _ => false

/-- Property read `v[k]`: the first binding of `k` on an object,
`undefined` otherwise. -/
def getField (v : JVal) (k : String) : JVal :=
  match v with
  | .obj fields =>
    match fields.find? (fun kv => kv.fst == k) with
    | some kv => kv.snd
    | none => .undefined
  | _ => .undefined

/-- Property write `v[k] = x` on an object: overwrite the first binding
of `k` in place, appending the binding when `k` is new; no effect on
non-objects. -/
def setFieldList (fields : List (String × JVal)) (k : String) (x : JVal) :
    List (String × JVal) :=
  match fields with
  | [] => [(k, x)]
  | kv :: rest =>
    if kv.fst == k then (k, x) :: rest
    else kv :: setFieldList rest k x

/-- Property write `v[k] = x` (see `setFieldList`). -/
def setField (v : JVal) (k : String) (x : JVal) : JVal :=
  match v with
  | .obj fields => .obj (setFieldList fields k x)
  | _ => v

/-- `Storage.validateData`: `data && typeof data === 'object' &&
data.currentUser && typeof data.currentUser === 'object' &&
data.currentUser.username && Array.isArray(data.comments)`. -/
def validateData (data : JVal) : Bool :=
  truthy data && typeofIsObject data &&
  truthy (getField data "currentUser") && typeofIsObject (getField data "currentUser") &&
  truthy (getField (getField data "currentUser") "username") &&
  isArray (getField data "comments")

/-- Modelled from the spec: "a candidate snapshot is valid iff it has a
user object with a non-empty username AND a comments field that is a
sequence (possibly empty)" — read with the data model's `username:
string`, so the username must be a non-empty string. -/
def specValidSnapshot (data : JVal) : Bool :=
  (match data with | .obj _ => true | _ => false) &&
  (match getField data "currentUser" with | .obj _ => true | _ => false) &&
  (match getField (getField data "currentUser") "username" with
   | .str s => s != ""
   | _ => false) &&
  isArray (getField data "comments")

/-- The validation rule the code actually implements, spelled out in the
spec's vocabulary: the snapshot is an object; its `currentUser` is an
object (or array); its `username` field is truthy — for a string
username, exactly the non-empty ones, but any non-zero number, `true`,
object or array also passes; and `comments` is an array. -/
def specValidSnapshotAmended (data : JVal) : Bool :=
  (match data with | .obj _ => true | _ => false) &&
  (match getField data "currentUser" with | .obj _ => true | .arr _ => true | _ => false) &&
  truthy (getField (getField data "currentUser") "username") &&
  isArray (getField data "comments")

/-- The avatar object of a seeded user in `Storage.getInitialData`. -/
def seedImage (name : String) : JVal :=
  .obj [("png", .str ("./images/avatars/image-" ++ name ++ ".png")),
        ("webp", .str ("./images/avatars/image-" ++ name ++ ".webp"))]

/-- One seeded top-level comment of `Storage.getInitialData` as a JSON
value. -/
def seedCommentJ (commentId : Int) (content : String) (ageMillis : Int) (score : Int)
    (username : String) (now : Int) (replies : List JVal) : JVal :=
  .obj [("id", .num commentId),
        ("content", .str content),
        ("createdAt", .str (isoDate (now - ageMillis))),
        ("score", .num score),
        ("user", .obj [("image", seedImage username), ("username", .str username)]),
        ("replies", .arr replies)]

/-- One seeded reply of `Storage.getInitialData` as a JSON value (replies
carry `replyingTo` and no `replies` property). -/
def seedReplyJ (commentId : Int) (content : String) (ageMillis : Int) (score : Int)
    (replyingTo : String) (username : String) (now : Int) : JVal :=
  .obj [("id", .num commentId),
        ("content", .str content),
        ("createdAt", .str (isoDate (now - ageMillis))),
        ("score", .num score),
        ("replyingTo", .str replyingTo),
        ("user", .obj [("image", seedImage username), ("username", .str username)])]

/-- The seeded `comments` array of `Storage.getInitialData` as JSON
values. -/
def initialCommentsJ (now : Int) : List JVal :=
  [seedCommentJ 1
                  "Impressive! Though it seems the drag feature could be improved. But overall it looks incredible. You've nailed the design and the responsiveness at various breakpoints works really well."
                  (30 * 24 * 60 * 60 * 1000) 12 "amyrobson" now [],
                seedCommentJ 2
                  "Woah, your project looks awesome! How long have you been coding for? I'm still new, but think I want to dive into React as well soon. Perhaps you can give me an insight on where I can learn React? Thanks!"
                  (14 * 24 * 60 * 60 * 1000) 5 "maxblagun" now
                  [seedReplyJ 3
                    "If you're still new, I'd recommend focusing on the fundamentals of HTML, CSS, and JS before considering React. It's very tempting to jump ahead but lay a solid foundation first."
                    (7 * 24 * 60 * 60 * 1000) 4 "maxblagun" "ramsesmiron" now,
                   seedReplyJ 4
                    "I couldn't agree more with this. Everything moves so fast and it always seems like everyone knows the newest library/framework. But the fundamentals are what stay constant."
                    (2 * 24 * 60 * 60 * 1000) 2 "ramsesmiron" "juliusomo" now]]

/-- `Storage.getInitialData`: the hardcoded default snapshot — current
user `juliusomo`, comments 1 and 2, comment 2 holding replies 3 and 4. -/
def initialDataJ (now : Int) : JVal :=
  .obj [("currentUser",
          .obj [("image", seedImage "juliusomo"), ("username", .str "juliusomo")]),
        ("comments", .arr (initialCommentsJ now))]

/-- `Storage.getData`: read the blob at the fixed key (`none` models both
an absent key and a `JSON.parse` failure), validate, and fall back to the
hardcoded default. -/
def getData (stored : Option JVal) (now : Int) : JVal :=
  match stored with
  | some d => if validateData d then d else initialDataJ now
  | none => initialDataJ now

/-- `Storage.saveData`: validate, then overwrite the blob at the fixed
key (`JSON.stringify` followed by `JSON.parse` on read is the identity on
these values, so the cell holds the value itself); an invalid snapshot is
rejected and the cell keeps its previous content. Returns the new cell
content and the success flag. -/
def saveData (d : JVal) (stored : Option JVal) : Option JVal × Bool :=
  if validateData d then (some d, true) else (stored, false)

/-- `Storage.importData`: parse the JSON text (`none` models a parse
failure), validate, and save; returns `true` exactly when validation
passed. -/
def importData (input : Option JVal) (stored : Option JVal) : Option JVal × Bool :=
  match input with
  | none => (stored, false)
  | some d => if validateData d then ((saveData d stored).1, true) else (stored, false)

/-- Substring test used to model `timeString.includes(pat)`. -/
def strContains (s pat : String) : Bool :=
  (s.splitOn pat).length != 1

/-- `parseInt(s)`: the leading decimal digits of `s`; `none` models
`NaN`. -/
def parseIntJs (s : String) : Option Int :=
  let digits := s.takeWhile Char.isDigit
  match digits.toNat? with
  | some n => some (Int.ofNat n)
  | none => none

/-- `Storage.convertToISODate`: turn a relative-time phrase into an ISO
date string; `none` models a thrown exception (`includes` on a
non-string, or `toISOString` on an invalid date built from `NaN`). -/
def convertToISODate (now : Int) (v : JVal) : Option JVal :=
  match v with
  | .str s =>
    let tv := parseIntJs s
    if strContains s "month" then
      match tv with
      | some n => some (.str (isoDate (now - n * (30 * 24 * 60 * 60 * 1000))))
      | none => none
    else if strContains s "week" then
      match tv with
      | some n => some (.str (isoDate (now - n * (7 * 24 * 60 * 60 * 1000))))
      | none => none
    else if strContains s "day" then
      match tv with
      | some n => some (.str (isoDate (now - n * (24 * 60 * 60 * 1000))))
      | none => none
    else if strContains s "hour" then
      match tv with
      | some n => some (.str (isoDate (now - n * (60 * 60 * 1000))))
      | none => none
    else if strContains s "minute" then
      match tv with
      | some n => some (.str (isoDate (now - n * (60 * 1000))))
      | none => none
    else some (.str (isoDate now))
  | _ => none

/-- `Array.prototype.map` over an `Option`-producing body: the whole map
fails as soon as one element fails (a thrown exception aborts the map). -/
def mapOption (f : JVal → Option JVal) : List JVal → Option (List JVal)
  | [] => some []
  | c :: rest =>
    match f c, mapOption f rest with
    | some c2, some rest2 => some (c2 :: rest2)
    | _, _ => none

/-- One element of the `processComments` closure of
`Storage.loadInitialData`: `{...comment, createdAt:
convertToISODate(comment.createdAt), replies: comment.replies ?
processComments(comment.replies) : []}` — the recursive
`processComments(replies)` call (`map` over an array, exception on a
non-array) is inlined here, see `processCommentsF`. `none` models a
thrown exception. The `fuel` argument bounds the recursion depth of this
shallow embedding; every finite JSON value is processed exactly as in
the source once `fuel` exceeds its nesting depth, and the theorems below
quantify over `fuel`. -/
def processOneF : Nat → Int → JVal → Option JVal
  | 0, _, _ => none
  | fuel + 1, now, c =>
    match convertToISODate now (getField c "createdAt") with
    | none => none
    | some dt =>
      match (if truthy (getField c "replies") then
              match getField c "replies" with
              | .arr rs => mapOption (processOneF fuel now) rs
              | _ => none
             else some []) with
      | none => none
      | some rs => some (setField (setField c "createdAt" dt) "replies" (.arr rs))

/-- The `processComments` closure of `Storage.loadInitialData`:
`comments.map(...)`; `none` models a thrown exception (`map` on a
non-array or a failure inside an element). -/
def processCommentsF (fuel : Nat) (now : Int) (v : JVal) : Option (List JVal) :=
  match v with
  | .arr cs => mapOption (processOneF fuel now) cs
  | _ => none

/-- `Storage.loadInitialData`: fetch the bundled seed (`none` models a
failed or non-ok fetch or a JSON error), run `processComments` over its
`comments`, and fall back to the hardcoded default on any exception. The
fetched seed is returned without shape validation. -/
def loadInitialData (seed : Option JVal) (now : Int) (fuel : Nat) : JVal :=
  match seed with
  | none => initialDataJ now
  | some data =>
    match processCommentsF fuel now (getField data "comments") with
    | none => initialDataJ now
    | some cs => setField data "comments" (.arr cs)

/-- `CommentsApp.loadData`: take `Storage.getData()`; when its `comments`
sequence is empty, replace it by `Storage.loadInitialData()`; any thrown
error falls back to `Storage.getInitialData()`. Returns the snapshot the
app ends up holding. -/
def loadData (stored seed : Option JVal) (now : Int) (fuel : Nat) : JVal :=
  match getField (getData stored now) "comments" with
  | .arr xs => if xs.length == 0 then loadInitialData seed now fuel else getData stored now
  | _ => initialDataJ now

theorem Comment.withScore_id (c : Comment) (s : Int) : (c.withScore s).id = c.id := by
  cases c; rfl

theorem Comment.withScore_score (c : Comment) (s : Int) : (c.withScore s).score = s := by
  cases c; rfl

theorem Comment.withScore_replies (c : Comment) (s : Int) :
    (c.withScore s).replies = c.replies := by
  cases c; rfl

theorem Comment.withContent_id (c : Comment) (s : String) : (c.withContent s).id = c.id := by
  cases c; rfl

theorem Comment.withContent_replies (c : Comment) (s : String) :
    (c.withContent s).replies = c.replies := by
  cases c; rfl

theorem Comment.withReplies_id (c : Comment) (rs : Option (List Comment)) :
    (c.withReplies rs).id = c.id := by
  cases c; rfl

theorem Comment.withReplies_score (c : Comment) (rs : Option (List Comment)) :
    (c.withReplies rs).score = c.score := by
  cases c; rfl

theorem Comment.withReplies_replies (c : Comment) (rs : Option (List Comment)) :
    (c.withReplies rs).replies = rs := by
  cases c; rfl

theorem find_updateFirst (rs : List Comment) (commentId : Int) (f : Comment → Comment)
    (hid : ∀ c, (f c).id = c.id) :
    (updateFirst rs commentId f).find? (fun r => r.id == commentId)
      = (rs.find? (fun r => r.id == commentId)).map f := by
  induction rs with
  | nil => rfl
  | cons r rest ih =>
    by_cases h : (r.id == commentId) = true
    · have h2 : ((f r).id == commentId) = true := by rw [hid]; exact h
      simp [updateFirst, h, List.find?_cons, h2]
    · have h0 : (r.id == commentId) = false := by
        cases hb : (r.id == commentId) with
        | true => exact absurd hb h
        | false => rfl
      simp only [updateFirst, h0, Bool.false_eq_true, if_false]
      simp only [List.find?_cons, h0]
      exact ih

theorem find_updateFound (cs : List Comment) (commentId : Int) (f : Comment → Comment)
    (hid : ∀ c, (f c).id = c.id) :
    findComment (updateFound cs commentId f) commentId
      = (findComment cs commentId).map f := by
  induction cs with
  | nil => rfl
  | cons c rest ih =>
    by_cases h : (c.id == commentId) = true
    · have h2 : ((f c).id == commentId) = true := by rw [hid]; exact h
      simp [updateFound, h, findComment, h2]
    · have h0 : (c.id == commentId) = false := by
        cases hb : (c.id == commentId) with
        | true => exact absurd hb h
        | false => rfl
      have h0f : ((f c).id == commentId) = false := by rw [hid]; exact h0
      cases hrep : c.replies with
      | none =>
        simp only [updateFound, h0, Bool.false_eq_true, if_false, hrep]
        simp only [findComment, h0, Bool.false_eq_true, if_false, hrep]
        exact ih
      | some rs =>
        by_cases hany : (rs.any fun r => r.id == commentId) = true
        · have hwid : ((c.withReplies (some (updateFirst rs commentId f))).id == commentId) = false := by
            rw [Comment.withReplies_id]; exact h0
          simp only [updateFound, h0, Bool.false_eq_true, if_false, hrep, hany, if_true]
          simp only [findComment, hwid, h0, Bool.false_eq_true, if_false,
            Comment.withReplies_replies, hrep]
          rw [find_updateFirst rs commentId f hid]
          rcases hr : rs.find? (fun r => r.id == commentId) with _ | r
          · rcases List.any_eq_true.mp hany with ⟨x, hx, hpx⟩
            exact absurd hpx (List.find?_eq_none.mp hr x hx)
          · rw [hr]
            rfl
        · have hany0 : (rs.any fun r => r.id == commentId) = false := by
            cases hb : (rs.any fun r => r.id == commentId) with
            | true => exact absurd hb hany
            | false => rfl
          have hnone : rs.find? (fun r => r.id == commentId) = none := by
            rw [List.find?_eq_none]
            intro x hx
            exact fun hpx => hany (List.any_eq_true.mpr ⟨x, hx, hpx⟩)
          simp only [updateFound, h0, Bool.false_eq_true, if_false, hrep, hany0]
          simp only [findComment, h0, Bool.false_eq_true, if_false, hrep, hnone]
          exact ih

theorem occursShallow_cons (c : Comment) (cs : List Comment) (commentId : Int) :
    occursShallow (c :: cs) commentId
      = ((c.id == commentId || (c.replies.getD []).any fun r => r.id == commentId)
          || occursShallow cs commentId) := by
  simp [occursShallow, List.any_cons]

theorem findComment_eq_none_iff (cs : List Comment) (commentId : Int) :
    findComment cs commentId = none ↔ occursShallow cs commentId = false := by
  induction cs with
  | nil => simp [findComment, occursShallow]
  | cons c rest ih =>
    rw [occursShallow_cons]
    by_cases h : (c.id == commentId) = true
    · simp [findComment, h]
    · have h0 := eq_false_of_ne_true h
      cases hrep : c.replies with
      | none =>
        simp only [findComment, h0, Bool.false_eq_true, if_false, hrep, Option.getD_none,
          List.any_nil, Bool.or_false, Bool.false_or]
        exact ih
      | some rs =>
        simp only [findComment, h0, Bool.false_eq_true, if_false, hrep, Option.getD_some,
          Bool.false_or]
        rcases hr : rs.find? (fun r => r.id == commentId) with _ | r
        · have hany0 : (rs.any fun r => r.id == commentId) = false := by
            rw [List.any_eq_false]
            exact List.find?_eq_none.mp hr
          simp only [hr, hany0, Bool.false_or]
          exact ih
        · have hpr := List.find?_some hr
          have hany : (rs.any fun r => r.id == commentId) = true :=
            List.any_eq_true.mpr ⟨r, List.mem_of_find?_eq_some hr, hpr⟩
          simp [hr, hany]

theorem findComment_eq_none (cs : List Comment) (commentId : Int)
    (h : occursShallow cs commentId = false) : findComment cs commentId = none :=
  (findComment_eq_none_iff cs commentId).mpr h

theorem occursInComments_flat (commentId : Int) (rs : List Comment)
    (h : ∀ r ∈ rs, r.replies.isNone = true) :
    occursInComments commentId rs = rs.any fun r => r.id == commentId := by
  induction rs with
  | nil => rfl
  | cons r rest ih =>
    have hr := h r (List.mem_cons_self r rest)
    have hrest : ∀ x ∈ rest, x.replies.isNone = true :=
      fun x hx => h x (List.mem_cons_of_mem r hx)
    rcases r with ⟨i, co, d, s, u, rt, _ | rrs⟩
    · simp only [occursInComments, occursInComment, List.any_cons]
      rw [ih hrest]
      rfl
    · exact absurd hr (by simp [Comment.replies])

theorem occursInComments_eq_shallow (commentId : Int) (cs : List Comment)
    (h2 : twoLevel cs = true) :
    occursInComments commentId cs = occursShallow cs commentId := by
  induction cs with
  | nil => rfl
  | cons c rest ih =>
    rw [twoLevel, List.all_cons, Bool.and_eq_true] at h2
    rw [occursShallow_cons, ← ih h2.2]
    rcases c with ⟨i, co, d, s, u, rt, _ | rs⟩
    · simp [occursInComments, occursInComment, Comment.id, Comment.replies]
    · have hflat : ∀ r ∈ rs, r.replies.isNone = true := by
        have := h2.1
        rw [replyFlat] at this
        simp only [Comment.replies, Option.getD_some] at this
        exact List.all_eq_true.mp this
      simp only [occursInComments, occursInComment]
      rw [occursInComments_flat commentId rs hflat]
      rfl

theorem removeFromReplies_of_absent (cs : List Comment) (commentId : Int)
    (h : occursShallow cs commentId = false) :
    removeFromReplies cs commentId = cs := by
  induction cs with
  | nil => rfl
  | cons c rest ih =>
    rw [occursShallow_cons, Bool.or_eq_false_iff, Bool.or_eq_false_iff] at h
    obtain ⟨⟨_, hany⟩, hrest⟩ := h
    cases hrep : c.replies with
    | none =>
      simp only [removeFromReplies, hrep]
      rw [ih hrest]
    | some rs =>
      rw [hrep] at hany
      simp only [removeFromReplies, hrep, Option.getD_some] at hany ⊢
      rw [hany]
      simp only [Bool.false_eq_true, if_false]
      rw [ih hrest]

theorem removeComment_of_absent (cs : List Comment) (commentId : Int)
    (h : occursShallow cs commentId = false) :
    removeComment cs commentId = cs := by
  have htop : (cs.any fun c => c.id == commentId) = false := by
    rw [List.any_eq_false]
    intro c hc hcid
    have : occursShallow cs commentId = true := by
      rw [occursShallow]
      exact List.any_eq_true.mpr ⟨c, hc, by rw [hcid]; rfl⟩
    rw [this] at h
    exact Bool.true_eq_false.mp h
  rw [removeComment, htop]
  simp only [Bool.false_eq_true, if_false]
  exact removeFromReplies_of_absent cs commentId h

theorem replyFlat_congr {c c2 : Comment} (h : c2.replies = c.replies) :
    replyFlat c2 = replyFlat c := by
  rw [replyFlat, replyFlat, h]

theorem flat_updateFirst (rs : List Comment) (commentId : Int) (f : Comment → Comment)
    (hrep : ∀ c, (f c).replies = c.replies)
    (h : ∀ r ∈ rs, r.replies.isNone = true) :
    ∀ r ∈ updateFirst rs commentId f, r.replies.isNone = true := by
  induction rs with
  | nil => intro r hr; exact absurd hr (List.not_mem_nil r)
  | cons r rest ih =>
    have hr := h r (List.mem_cons_self r rest)
    have hrest : ∀ x ∈ rest, x.replies.isNone = true :=
      fun x hx => h x (List.mem_cons_of_mem r hx)
    intro x hx
    by_cases hid : (r.id == commentId) = true
    · simp only [updateFirst, hid, if_true] at hx
      rcases List.mem_cons.mp hx with hx | hx
      · rw [hx, hrep]
        exact hr
      · exact hrest x hx
    · have h0 := eq_false_of_ne_true hid
      simp only [updateFirst, h0, Bool.false_eq_true, if_false] at hx
      rcases List.mem_cons.mp hx with hx | hx
      · rw [hx]; exact hr
      · exact ih hrest x hx

theorem twoLevel_updateFound_keep (cs : List Comment) (commentId : Int) (f : Comment → Comment)
    (hrep : ∀ c, (f c).replies = c.replies)
    (h2 : twoLevel cs = true) : twoLevel (updateFound cs commentId f) = true := by
  induction cs with
  | nil => rfl
  | cons c rest ih =>
    rw [twoLevel, List.all_cons, Bool.and_eq_true] at h2
    by_cases h : (c.id == commentId) = true
    · simp only [updateFound, h, if_true, twoLevel, List.all_cons, Bool.and_eq_true]
      exact ⟨by rw [replyFlat_congr (hrep c)]; exact h2.1, h2.2⟩
    · have h0 := eq_false_of_ne_true h
      cases hrepc : c.replies with
      | none =>
        simp only [updateFound, h0, Bool.false_eq_true, if_false, hrepc, twoLevel,
          List.all_cons, Bool.and_eq_true]
        exact ⟨h2.1, ih h2.2⟩
      | some rs =>
        by_cases hany : (rs.any fun r => r.id == commentId) = true
        · simp only [updateFound, h0, Bool.false_eq_true, if_false, hrepc, hany, if_true,
            twoLevel, List.all_cons, Bool.and_eq_true]
          refine ⟨?_, h2.2⟩
          have hflat : ∀ r ∈ rs, r.replies.isNone = true := by
            have := h2.1
            rw [replyFlat, hrepc, Option.getD_some] at this
            exact List.all_eq_true.mp this
          rw [replyFlat, Comment.withReplies_replies, Option.getD_some, List.all_eq_true]
          exact flat_updateFirst rs commentId f hrep hflat
        · have hany0 := eq_false_of_ne_true hany
          simp only [updateFound, h0, Bool.false_eq_true, if_false, hrepc, hany0, twoLevel,
            List.all_cons, Bool.and_eq_true]
          exact ⟨h2.1, ih h2.2⟩

theorem twoLevel_updateFound_safe (cs : List Comment) (commentId : Int) (f : Comment → Comment)
    (hsafe : (cs.any fun c => (c.replies.getD []).any fun r => r.id == commentId) = false)
    (hflat : ∀ c, replyFlat c = true → replyFlat (f c) = true)
    (h2 : twoLevel cs = true) : twoLevel (updateFound cs commentId f) = true := by
  induction cs with
  | nil => rfl
  | cons c rest ih =>
    rw [twoLevel, List.all_cons, Bool.and_eq_true] at h2
    rw [List.any_cons, Bool.or_eq_false_iff] at hsafe
    by_cases h : (c.id == commentId) = true
    · simp only [updateFound, h, if_true, twoLevel, List.all_cons, Bool.and_eq_true]
      exact ⟨hflat c h2.1, h2.2⟩
    · have h0 := eq_false_of_ne_true h
      cases hrepc : c.replies with
      | none =>
        simp only [updateFound, h0, Bool.false_eq_true, if_false, hrepc, twoLevel,
          List.all_cons, Bool.and_eq_true]
        exact ⟨h2.1, ih hsafe.2 h2.2⟩
      | some rs =>
        have hany0 : (rs.any fun r => r.id == commentId) = false := by
          have := hsafe.1
          rw [hrepc, Option.getD_some] at this
          exact this
        simp only [updateFound, h0, Bool.false_eq_true, if_false, hrepc, hany0, twoLevel,
          List.all_cons, Bool.and_eq_true]
        exact ⟨h2.1, ih hsafe.2 h2.2⟩

theorem flat_removeFirstById (rs : List Comment) (commentId : Int)
    (h : ∀ r ∈ rs, r.replies.isNone = true) :
    ∀ r ∈ removeFirstById rs commentId, r.replies.isNone = true := by
  induction rs with
  | nil => intro r hr; exact absurd hr (List.not_mem_nil r)
  | cons r rest ih =>
    have hrest : ∀ x ∈ rest, x.replies.isNone = true :=
      fun x hx => h x (List.mem_cons_of_mem r hx)
    intro x hx
    by_cases hid : (r.id == commentId) = true
    · simp only [removeFirstById, hid, if_true] at hx
      exact hrest x hx
    · have h0 := eq_false_of_ne_true hid
      simp only [removeFirstById, h0, Bool.false_eq_true, if_false] at hx
      rcases List.mem_cons.mp hx with hx | hx
      · rw [hx]; exact h r (List.mem_cons_self r rest)
      · exact ih hrest x hx

theorem twoLevel_removeFirstById (cs : List Comment) (commentId : Int)
    (h2 : twoLevel cs = true) : twoLevel (removeFirstById cs commentId) = true := by
  induction cs with
  | nil => rfl
  | cons c rest ih =>
    rw [twoLevel, List.all_cons, Bool.and_eq_true] at h2
    by_cases h : (c.id == commentId) = true
    · simp only [removeFirstById, h, if_true]
      exact h2.2
    · have h0 := eq_false_of_ne_true h
      simp only [removeFirstById, h0, Bool.false_eq_true, if_false, twoLevel, List.all_cons,
        Bool.and_eq_true]
      exact ⟨h2.1, ih h2.2⟩

theorem twoLevel_removeFromReplies (cs : List Comment) (commentId : Int)
    (h2 : twoLevel cs = true) : twoLevel (removeFromReplies cs commentId) = true := by
  induction cs with
  | nil => rfl
  | cons c rest ih =>
    rw [twoLevel, List.all_cons, Bool.and_eq_true] at h2
    cases hrepc : c.replies with
    | none =>
      simp only [removeFromReplies, hrepc, twoLevel, List.all_cons, Bool.and_eq_true]
      exact ⟨h2.1, ih h2.2⟩
    | some rs =>
      by_cases hany : (rs.any fun r => r.id == commentId) = true
      · simp only [removeFromReplies, hrepc, hany, if_true, twoLevel, List.all_cons,
          Bool.and_eq_true]
        refine ⟨?_, h2.2⟩
        have hflat : ∀ r ∈ rs, r.replies.isNone = true := by
          have := h2.1
          rw [replyFlat, hrepc, Option.getD_some] at this
          exact List.all_eq_true.mp this
        rw [replyFlat, Comment.withReplies_replies, Option.getD_some, List.all_eq_true]
        exact flat_removeFirstById rs commentId hflat
      · have hany0 := eq_false_of_ne_true hany
        simp only [removeFromReplies, hrepc, hany0, Bool.false_eq_true, if_false, twoLevel,
          List.all_cons, Bool.and_eq_true]
        exact ⟨h2.1, ih h2.2⟩

theorem twoLevel_removeComment (cs : List Comment) (commentId : Int)
    (h2 : twoLevel cs = true) : twoLevel (removeComment cs commentId) = true := by
  rw [removeComment]
  by_cases h : (cs.any fun c => c.id == commentId) = true
  · rw [if_pos h]
    exact twoLevel_removeFirstById cs commentId h2
  · rw [if_neg h]
    exact twoLevel_removeFromReplies cs commentId h2

theorem twoLevel_handleDeleteConfirm (cs : List Comment) (commentId : Int)
    (h2 : twoLevel cs = true) : twoLevel (handleDeleteConfirm cs commentId) = true := by
  rw [handleDeleteConfirm]
  by_cases h : (commentId == 0) = true
  · rw [if_pos h]; exact h2
  · rw [if_neg h]
    cases findComment cs commentId with
    | none => exact h2
    | some c => exact twoLevel_removeComment cs commentId h2

theorem twoLevel_handleAddComment (cs : List Comment) (content : String) (user : CUser)
    (now : Int) (rand : Nat) (h2 : twoLevel cs = true) :
    twoLevel (handleAddComment cs content user now rand) = true := by
  rw [handleAddComment, twoLevel, List.all_append, Bool.and_eq_true]
  exact ⟨h2, by rfl⟩

theorem twoLevel_handleCreateReply_safe (cs : List Comment) (parentId : Int)
    (replyingTo content : String) (user : CUser) (now : Int) (rand : Nat)
    (hsafe : (cs.any fun c => (c.replies.getD []).any fun r => r.id == parentId) = false)
    (h2 : twoLevel cs = true) :
    twoLevel (handleCreateReply cs parentId replyingTo content user now rand) = true := by
  rw [handleCreateReply]
  cases findComment cs parentId with
  | none => exact h2
  | some c =>
    apply twoLevel_updateFound_safe cs parentId _ hsafe _ h2
    intro x hx
    rw [replyFlat, Comment.withReplies_replies, Option.getD_some, List.all_append,
      Bool.and_eq_true]
    constructor
    · rw [replyFlat] at hx
      cases hrep : x.replies with
      | none => simp [Option.getD_none]
      | some rs => rw [hrep, Option.getD_some] at hx; exact hx
    · rfl

theorem twoLevel_handleVote (cs : List Comment) (commentId : Int) (action : String)
    (h2 : twoLevel cs = true) : twoLevel (handleVote cs commentId action) = true := by
  rw [handleVote]
  cases findComment cs commentId with
  | none => exact h2
  | some c =>
    by_cases h : (action == "upvote") = true
    · rw [if_pos h]
      exact twoLevel_updateFound_keep cs commentId _ (fun c => Comment.withScore_replies c _) h2
    · rw [if_neg h]
      by_cases hd : (action == "downvote") = true
      · rw [if_pos hd]
        exact twoLevel_updateFound_keep cs commentId _ (fun c => Comment.withScore_replies c _) h2
      · rw [if_neg hd]
        exact h2

theorem twoLevel_handleUpdateComment (cs : List Comment) (commentId : Int) (content : String)
    (h2 : twoLevel cs = true) : twoLevel (handleUpdateComment cs commentId content) = true := by
  rw [handleUpdateComment]
  cases findComment cs commentId with
  | none => exact h2
  | some c =>
    exact twoLevel_updateFound_keep cs commentId _ (fun c => Comment.withContent_replies c _) h2

theorem twoLevel_applyOp (cs : List Comment) (op : Op) (hs : opSafe cs op)
    (h2 : twoLevel cs = true) : twoLevel (applyOp cs op) = true := by
  cases op with
  | addComment content user now rand => exact twoLevel_handleAddComment cs content user now rand h2
  | addReply parentId replyingTo content user now rand =>
    exact twoLevel_handleCreateReply_safe cs parentId replyingTo content user now rand hs h2
  | update commentId content => exact twoLevel_handleUpdateComment cs commentId content h2
  | vote commentId action => exact twoLevel_handleVote cs commentId action h2
  | remove commentId => exact twoLevel_handleDeleteConfirm cs commentId h2

theorem nonneg_updateFirst (rs : List Comment) (commentId : Int) (f : Comment → Comment)
    (hsc : ∀ c, 0 ≤ c.score → 0 ≤ (f c).score)
    (h : ∀ r ∈ rs, 0 ≤ r.score) :
    ∀ r ∈ updateFirst rs commentId f, 0 ≤ r.score := by
  induction rs with
  | nil => intro r hr; exact absurd hr (List.not_mem_nil r)
  | cons r rest ih =>
    have hr := h r (List.mem_cons_self r rest)
    have hrest : ∀ x ∈ rest, 0 ≤ x.score := fun x hx => h x (List.mem_cons_of_mem r hx)
    intro x hx
    by_cases hid : (r.id == commentId) = true
    · simp only [updateFirst, hid, if_true] at hx
      rcases List.mem_cons.mp hx with hx | hx
      · rw [hx]; exact hsc r hr
      · exact hrest x hx
    · simp only [updateFirst, eq_false_of_ne_true hid, Bool.false_eq_true, if_false] at hx
      rcases List.mem_cons.mp hx with hx | hx
      · rw [hx]; exact hr
      · exact ih hrest x hx

theorem nonneg_updateFound (cs : List Comment) (commentId : Int) (f : Comment → Comment)
    (hsc : ∀ c, 0 ≤ c.score → 0 ≤ (f c).score)
    (hrep : ∀ c, (f c).replies = c.replies)
    (h : scoresNonneg cs) : scoresNonneg (updateFound cs commentId f) := by
  induction cs with
  | nil => intro c hc; exact absurd hc (List.not_mem_nil c)
  | cons c rest ih =>
    have hc := h c (List.mem_cons_self c rest)
    have hrest : scoresNonneg rest := fun x hx => h x (List.mem_cons_of_mem c hx)
    by_cases hid : (c.id == commentId) = true
    · simp only [updateFound, hid, if_true]
      intro x hx
      rcases List.mem_cons.mp hx with hx | hx
      · rw [hx, hrep]
        exact ⟨hsc c hc.1, hc.2⟩
      · exact hrest x hx
    · have h0 := eq_false_of_ne_true hid
      cases hrepc : c.replies with
      | none =>
        simp only [updateFound, h0, Bool.false_eq_true, if_false, hrepc]
        intro x hx
        rcases List.mem_cons.mp hx with hx | hx
        · rw [hx]; exact hc
        · exact ih hrest x hx
      | some rs =>
        by_cases hany : (rs.any fun r => r.id == commentId) = true
        · simp only [updateFound, h0, Bool.false_eq_true, if_false, hrepc, hany, if_true]
          intro x hx
          rcases List.mem_cons.mp hx with hx | hx
          · rw [hx]
            refine ⟨by rw [Comment.withReplies_score]; exact hc.1, ?_⟩
            rw [Comment.withReplies_replies, Option.getD_some]
            apply nonneg_updateFirst rs commentId f hsc
            have := hc.2
            rw [hrepc, Option.getD_some] at this
            exact this
          · exact hrest x hx
        · simp only [updateFound, h0, Bool.false_eq_true, if_false, hrepc,
            eq_false_of_ne_true hany]
          intro x hx
          rcases List.mem_cons.mp hx with hx | hx
          · rw [hx]; exact hc
          · exact ih hrest x hx

theorem nonneg_handleVote (cs : List Comment) (commentId : Int) (action : String)
    (h : scoresNonneg cs) : scoresNonneg (handleVote cs commentId action) := by
  rw [handleVote]
  cases findComment cs commentId with
  | none => exact h
  | some c =>
    by_cases hu : (action == "upvote") = true
    · rw [if_pos hu]
      refine nonneg_updateFound cs commentId _ ?_ (fun c => Comment.withScore_replies c _) h
      intro x hx
      rw [Comment.withScore_score]
      omega
    · rw [if_neg hu]
      by_cases hd : (action == "downvote") = true
      · rw [if_pos hd]
        refine nonneg_updateFound cs commentId _ ?_ (fun c => Comment.withScore_replies c _) h
        intro x hx
        rw [Comment.withScore_score]
        exact le_max_left 0 _
      · rw [if_neg hd]
        exact h

theorem commentSize_of_flatNone (c : Comment) (h : c.replies.isNone = true) :
    commentSize c = 1 := by
  rcases c with ⟨i, co, d, s, u, rt, _ | rs⟩
  · rfl
  · exact absurd h (by simp [Comment.replies])

theorem commentsSize_of_flat (rs : List Comment) (h : ∀ r ∈ rs, r.replies.isNone = true) :
    commentsSize rs = rs.length := by
  induction rs with
  | nil => rfl
  | cons r rest ih =>
    rw [commentsSize, commentSize_of_flatNone r (h r (List.mem_cons_self r rest)),
      ih (fun x hx => h x (List.mem_cons_of_mem r hx)), List.length_cons]
    omega

theorem commentSize_of_replyFlat (c : Comment) (h : replyFlat c = true) :
    commentSize c = 1 + (c.replies.getD []).length := by
  rcases c with ⟨i, co, d, s, u, rt, _ | rs⟩
  · rfl
  · rw [replyFlat] at h
    simp only [Comment.replies, Option.getD_some] at h ⊢
    rw [show commentSize (Comment.mk i co d s u rt (some rs)) = 1 + commentsSize rs from rfl,
      commentsSize_of_flat rs (List.all_eq_true.mp h)]

theorem size_removeFirstById (cs : List Comment) (commentId : Int) (c : Comment)
    (h2 : twoLevel cs = true)
    (hc : cs.find? (fun x => x.id == commentId) = some c) :
    commentsSize (removeFirstById cs commentId) + 1 + (c.replies.getD []).length
      = commentsSize cs := by
  induction cs with
  | nil => exact absurd hc (by simp)
  | cons a rest ih =>
    rw [twoLevel, List.all_cons, Bool.and_eq_true] at h2
    by_cases hid : (a.id == commentId) = true
    · rw [List.find?_cons_of_pos rest hid] at hc
      have hac : a = c := Option.some.inj hc
      simp only [removeFirstById, hid, if_true, commentsSize]
      rw [commentSize_of_replyFlat a h2.1, hac]
      omega
    · rw [List.find?_cons_of_neg rest hid] at hc
      have h0 := eq_false_of_ne_true hid
      simp only [removeFirstById, h0, Bool.false_eq_true, if_false, commentsSize]
      have := ih h2.2 hc
      omega

theorem length_removeFirstById (rs : List Comment) (commentId : Int)
    (hany : (rs.any fun r => r.id == commentId) = true) :
    (removeFirstById rs commentId).length + 1 = rs.length := by
  induction rs with
  | nil => exact absurd hany (by simp)
  | cons r rest ih =>
    by_cases hid : (r.id == commentId) = true
    · simp only [removeFirstById, hid, if_true, List.length_cons]
    · rw [List.any_cons, eq_false_of_ne_true hid, Bool.false_or] at hany
      simp only [removeFirstById, eq_false_of_ne_true hid, Bool.false_eq_true, if_false,
        List.length_cons]
      rw [← ih hany]

theorem size_removeFromReplies (cs : List Comment) (commentId : Int)
    (h2 : twoLevel cs = true)
    (hsh : (cs.any fun c => (c.replies.getD []).any fun r => r.id == commentId) = true) :
    commentsSize (removeFromReplies cs commentId) + 1 = commentsSize cs := by
  induction cs with
  | nil => exact absurd hsh (by simp)
  | cons c rest ih =>
    rw [twoLevel, List.all_cons, Bool.and_eq_true] at h2
    cases hrepc : c.replies with
    | none =>
      rw [List.any_cons, hrepc, Option.getD_none, List.any_nil, Bool.false_or] at hsh
      simp only [removeFromReplies, hrepc, commentsSize]
      have := ih h2.2 hsh
      omega
    | some rs =>
      have hflat : ∀ r ∈ rs, r.replies.isNone = true := by
        have := h2.1
        rw [replyFlat, hrepc, Option.getD_some] at this
        exact List.all_eq_true.mp this
      by_cases hany : (rs.any fun r => r.id == commentId) = true
      · simp only [removeFromReplies, hrepc, hany, if_true, commentsSize]
        have hsz : commentSize (c.withReplies (some (removeFirstById rs commentId)))
            = 1 + (removeFirstById rs commentId).length := by
          rw [commentSize_of_replyFlat]
          · rw [Comment.withReplies_replies, Option.getD_some]
          · rw [replyFlat, Comment.withReplies_replies, Option.getD_some, List.all_eq_true]
            exact flat_removeFirstById rs commentId hflat
        rw [hsz, commentSize_of_replyFlat c h2.1, hrepc, Option.getD_some,
          ← length_removeFirstById rs commentId hany]
        omega
      · rw [List.any_cons, hrepc, Option.getD_some, eq_false_of_ne_true hany,
          Bool.false_or] at hsh
        simp only [removeFromReplies, hrepc, eq_false_of_ne_true hany, Bool.false_eq_true,
          if_false, commentsSize]
        have := ih h2.2 hsh
        omega

theorem shallowIds_cons (c : Comment) (cs : List Comment) :
    shallowIds (c :: cs)
      = (c.id :: (c.replies.getD []).map Comment.id) ++ shallowIds cs := by
  simp [shallowIds]

theorem occursShallow_iff_mem (cs : List Comment) (commentId : Int) :
    occursShallow cs commentId = true ↔ commentId ∈ shallowIds cs := by
  induction cs with
  | nil => simp [occursShallow, shallowIds]
  | cons c rest ih =>
    rw [occursShallow_cons, shallowIds_cons]
    simp only [Bool.or_eq_true, List.any_eq_true, beq_iff_eq, List.mem_append,
      List.mem_cons, List.mem_map, ih]
    constructor
    · rintro ((h | ⟨r, hr, hid⟩) | h)
      · exact Or.inl (Or.inl h.symm)
      · exact Or.inl (Or.inr ⟨r, hr, hid⟩)
      · exact Or.inr h
    · rintro ((h | ⟨r, hr, hid⟩) | h)
      · exact Or.inl (Or.inl h.symm)
      · exact Or.inl (Or.inr ⟨r, hr, hid⟩)
      · exact Or.inr h

theorem noneLeft_removeFirstById (rs : List Comment) (commentId : Int)
    (hnd : (rs.map Comment.id).Nodup) :
    ((removeFirstById rs commentId).any fun r => r.id == commentId) = false := by
  induction rs with
  | nil => rfl
  | cons r rest ih =>
    rw [List.map_cons, List.nodup_cons] at hnd
    by_cases hid : (r.id == commentId) = true
    · simp only [removeFirstById, hid, if_true]
      rw [List.any_eq_false]
      intro x hx hpx
      apply hnd.1
      rw [List.mem_map]
      exact ⟨x, hx, by
        have h1 : x.id = commentId := by simpa using hpx
        have h2 : r.id = commentId := by simpa using hid
        rw [h1, h2]⟩
    · simp only [removeFirstById, eq_false_of_ne_true hid, Bool.false_eq_true, if_false,
        List.any_cons, eq_false_of_ne_true hid, Bool.false_or]
      exact ih hnd.2

theorem topId_mem_shallowIds (cs : List Comment) (c : Comment) (hc : c ∈ cs) :
    c.id ∈ shallowIds cs := by
  rw [shallowIds, List.mem_flatMap]
  exact ⟨c, hc, List.mem_cons_self c.id _⟩

theorem noShallow_removeFirstById (cs : List Comment) (commentId : Int)
    (hu : (shallowIds cs).Nodup)
    (hany : (cs.any fun c => c.id == commentId) = true) :
    occursShallow (removeFirstById cs commentId) commentId = false := by
  induction cs with
  | nil => exact absurd hany (by simp)
  | cons c rest ih =>
    rw [shallowIds_cons] at hu
    have hdisj := List.disjoint_of_nodup_append hu
    have hrest := hu.of_append_right
    by_cases hid : (c.id == commentId) = true
    · simp only [removeFirstById, hid, if_true]
      cases hocc : occursShallow rest commentId with
      | false => rfl
      | true =>
        have hm : commentId ∈ shallowIds rest := (occursShallow_iff_mem rest commentId).mp hocc
        have hcid : c.id = commentId := by simpa using hid
        exact absurd hm (by
          have := hdisj (List.mem_cons_self c.id _)
          rw [hcid] at this
          exact this)
    · rw [List.any_cons, eq_false_of_ne_true hid, Bool.false_or] at hany
      simp only [removeFirstById, eq_false_of_ne_true hid, Bool.false_eq_true, if_false]
      rw [occursShallow_cons, eq_false_of_ne_true hid, Bool.false_or]
      have hrepany : ((c.replies.getD []).any fun r => r.id == commentId) = false := by
        cases hb : (c.replies.getD []).any fun r => r.id == commentId with
        | false => rfl
        | true =>
          rcases List.any_eq_true.mp hb with ⟨r, hr, hpr⟩
          have hrid : r.id = commentId := by simpa using hpr
          rcases List.any_eq_true.mp hany with ⟨x, hx, hpx⟩
          have hxid : x.id = commentId := by simpa using hpx
          have hmem1 : commentId ∈ c.id :: (c.replies.getD []).map Comment.id := by
            rw [← hrid]
            exact List.mem_cons_of_mem _ (List.mem_map.mpr ⟨r, hr, rfl⟩)
          have hmem2 : commentId ∈ shallowIds rest := by
            rw [← hxid]
            exact topId_mem_shallowIds rest x hx
          exact absurd hmem2 (hdisj hmem1)
      rw [hrepany, Bool.false_or]
      exact ih hrest hany

theorem noShallow_removeFromReplies (cs : List Comment) (commentId : Int)
    (hu : (shallowIds cs).Nodup)
    (htop : (cs.any fun c => c.id == commentId) = false) :
    occursShallow (removeFromReplies cs commentId) commentId = false := by
  induction cs with
  | nil => rfl
  | cons c rest ih =>
    rw [shallowIds_cons] at hu
    have hdisj := List.disjoint_of_nodup_append hu
    have hblock := hu.of_append_left
    have hrest := hu.of_append_right
    rw [List.any_cons, Bool.or_eq_false_iff] at htop
    cases hrepc : c.replies with
    | none =>
      simp only [removeFromReplies, hrepc]
      rw [occursShallow_cons, htop.1, Bool.false_or, hrepc, Option.getD_none, List.any_nil,
        Bool.false_or]
      exact ih hrest htop.2
    | some rs =>
      by_cases hany : (rs.any fun r => r.id == commentId) = true
      · simp only [removeFromReplies, hrepc, hany, if_true]
        rw [occursShallow_cons, Comment.withReplies_id, htop.1, Bool.false_or,
          Comment.withReplies_replies, Option.getD_some]
        have hnd : (rs.map Comment.id).Nodup := by
          rw [hrepc, Option.getD_some] at hblock
          exact (List.nodup_cons.mp hblock).2
        rw [noneLeft_removeFirstById rs commentId hnd, Bool.false_or]
        cases hocc : occursShallow rest commentId with
        | false => rfl
        | true =>
          rcases List.any_eq_true.mp hany with ⟨r, hr, hpr⟩
          have hrid : r.id = commentId := by simpa using hpr
          have hmem1 : commentId ∈ c.id :: (c.replies.getD []).map Comment.id := by
            rw [hrepc, Option.getD_some, ← hrid]
            exact List.mem_cons_of_mem _ (List.mem_map.mpr ⟨r, hr, rfl⟩)
          have hmem2 := (occursShallow_iff_mem rest commentId).mp hocc
          exact absurd hmem2 (hdisj hmem1)
      · have hany0 := eq_false_of_ne_true hany
        simp only [removeFromReplies, hrepc, hany0, Bool.false_eq_true, if_false]
        rw [occursShallow_cons, htop.1, Bool.false_or, hrepc, Option.getD_some, hany0,
          Bool.false_or]
        exact ih hrest htop.2

theorem noShallow_removeComment (cs : List Comment) (commentId : Int)
    (hu : (shallowIds cs).Nodup) :
    occursShallow (removeComment cs commentId) commentId = false := by
  rw [removeComment]
  by_cases h : (cs.any fun c => c.id == commentId) = true
  · rw [if_pos h]
    exact noShallow_removeFirstById cs commentId hu h
  · rw [if_neg h]
    exact noShallow_removeFromReplies cs commentId hu (eq_false_of_ne_true h)

theorem specAttachTop_of_absent (cs : List Comment) (parentId : Int) (r : Comment)
    (h : (cs.any fun c => c.id == parentId) = false) :
    specAttachTop cs parentId r = cs := by
  induction cs with
  | nil => rfl
  | cons c rest ih =>
    rw [List.any_cons, Bool.or_eq_false_iff] at h
    simp only [specAttachTop, h.1, Bool.false_eq_true, if_false]
    rw [ih h.2]

theorem updateFound_attach_eq_spec (cs : List Comment) (parentId : Int) (newR : Comment)
    (hsafe : (cs.any fun c => (c.replies.getD []).any fun r => r.id == parentId) = false) :
    updateFound cs parentId (fun p => p.withReplies (some (p.replies.getD [] ++ [newR])))
      = specAttachTop cs parentId newR := by
  induction cs with
  | nil => rfl
  | cons c rest ih =>
    rw [List.any_cons, Bool.or_eq_false_iff] at hsafe
    by_cases hid : (c.id == parentId) = true
    · simp only [updateFound, hid, if_true, specAttachTop]
    · have h0 := eq_false_of_ne_true hid
      cases hrepc : c.replies with
      | none =>
        simp only [updateFound, h0, Bool.false_eq_true, if_false, hrepc, specAttachTop]
        rw [ih hsafe.2]
      | some rs =>
        have hany0 : (rs.any fun r => r.id == parentId) = false := by
          have := hsafe.1
          rw [hrepc, Option.getD_some] at this
          exact this
        simp only [updateFound, h0, Bool.false_eq_true, if_false, hrepc, hany0, specAttachTop]
        rw [ih hsafe.2]

theorem occursInComments_of_mem_id (rs : List Comment) (r : Comment) (commentId : Int)
    (hr : r ∈ rs) (hid : (r.id == commentId) = true) :
    occursInComments commentId rs = true := by
  induction rs with
  | nil => exact absurd hr (List.not_mem_nil r)
  | cons a rest ih =>
    rcases List.mem_cons.mp hr with hr | hr
    · subst hr
      rcases r with ⟨i, co, d, s, u, rt, _ | rrs⟩
      · simp only [occursInComments, occursInComment, Bool.or_eq_true]
        exact Or.inl (by simpa [Comment.id] using hid)
      · simp only [occursInComments, occursInComment, Bool.or_eq_true]
        exact Or.inl (Or.inl (by simpa [Comment.id] using hid))
    · simp only [occursInComments, Bool.or_eq_true]
      exact Or.inr (ih hr)

theorem occursInComments_of_shallow (cs : List Comment) (commentId : Int)
    (h : occursShallow cs commentId = true) :
    occursInComments commentId cs = true := by
  induction cs with
  | nil => exact absurd h (by simp [occursShallow])
  | cons c rest ih =>
    rw [occursShallow_cons, Bool.or_eq_true, Bool.or_eq_true] at h
    rcases h with (h | h) | h
    · exact occursInComments_of_mem_id (c :: rest) c commentId (List.mem_cons_self c rest) h
    · rcases List.any_eq_true.mp h with ⟨r, hr, hpr⟩
      cases hrepc : c.replies with
      | none => rw [hrepc, Option.getD_none] at hr; exact absurd hr (List.not_mem_nil r)
      | some rs =>
        rw [hrepc, Option.getD_some] at hr
        rcases c with ⟨i, co, d, s, u, rt, crs⟩
        simp only [Comment.replies] at hrepc
        subst hrepc
        simp only [occursInComments, occursInComment, Bool.or_eq_true]
        exact Or.inl (Or.inr (occursInComments_of_mem_id rs r commentId hr hpr))
    · simp only [occursInComments, Bool.or_eq_true]
      exact Or.inr (ih h)

theorem shallow_eq_false_of_deep (cs : List Comment) (commentId : Int)
    (h : occursInComments commentId cs = false) :
    occursShallow cs commentId = false := by
  cases hb : occursShallow cs commentId with
  | false => rfl
  | true => rw [occursInComments_of_shallow cs commentId hb] at h; exact absurd h (by simp)

theorem getField_setField_same (fields : List (String × JVal)) (k : String) (x : JVal) :
    getField (JVal.obj (setFieldList fields k x)) k = x := by
  induction fields with
  | nil => simp [setFieldList, getField, List.find?_cons]
  | cons kv rest ih =>
    by_cases h : (kv.fst == k) = true
    · simp [setFieldList, h, getField, List.find?_cons]
    · have h0 := eq_false_of_ne_true h
      simp only [setFieldList, h0, Bool.false_eq_true, if_false]
      simp only [getField, List.find?_cons, h0]
      simpa [getField] using ih

theorem getField_setField_ne (fields : List (String × JVal)) (k k2 : String) (x : JVal)
    (hk : (k2 == k) = false) :
    getField (JVal.obj (setFieldList fields k x)) k2
      = getField (JVal.obj fields) k2 := by
  induction fields with
  | nil =>
    simp only [setFieldList, getField, List.find?_cons]
    have : (k == k2) = false := by
      cases hb : (k == k2) with
      | false => rfl
      | true =>
        have : k = k2 := by simpa using hb
        rw [this] at hk
        simp at hk
    simp [this]
  | cons kv rest ih =>
    by_cases h : (kv.fst == k) = true
    · have hkv : kv.fst = k := by simpa using h
      have hne : (k == k2) = false := by
        cases hb : (k == k2) with
        | false => rfl
        | true =>
          have : k = k2 := by simpa using hb
          rw [this] at hk
          simp at hk
      have hne2 : (kv.fst == k2) = false := by rw [hkv]; exact hne
      simp only [setFieldList, h, if_true]
      simp only [getField, List.find?_cons, hne, hne2]
    · have h0 := eq_false_of_ne_true h
      simp only [setFieldList, h0, Bool.false_eq_true, if_false]
      by_cases h2 : (kv.fst == k2) = true
      · simp [getField, List.find?_cons, h2]
      · have h20 := eq_false_of_ne_true h2
        simp only [getField, List.find?_cons, h20]
        simpa [getField] using ih

theorem validateData_eq_amended (d : JVal) : validateData d = specValidSnapshotAmended d := by
  cases d with
  | null => rfl
  | undefined => rfl
  | bool b => simp [validateData, specValidSnapshotAmended, truthy, typeofIsObject, getField]
  | num n => simp [validateData, specValidSnapshotAmended, truthy, typeofIsObject, getField]
  | str s => simp [validateData, specValidSnapshotAmended, truthy, typeofIsObject, getField]
  | arr xs => simp [validateData, specValidSnapshotAmended, truthy, typeofIsObject, getField]
  | obj fields =>
    cases hcu : getField (JVal.obj fields) "currentUser" <;>
      simp [validateData, specValidSnapshotAmended, truthy, typeofIsObject, hcu]

/-- C1 (amended): starting from any two-level state (in particular the
initial seeded state), every trace of addTopLevelComment, addReply,
updateContent, vote and remove operations in which each addReply's
parentId matches no existing reply keeps the tree two-level: no reply
carries a replies sequence and every new reply lands on a top-level
comment. (As the counterexample shows, an addReply whose parentId
resolves to a reply instead nests the new reply beneath that reply.) -/
theorem safe_traces_preserve_two_level (cs : List Comment) (ops : List Op)
    (h2 : twoLevel cs = true) (hs : safeTrace cs ops) :
    twoLevel (applyOps cs ops) = true := by
  induction ops generalizing cs with
  | nil => exact h2
  | cons op rest ih =>
    rw [applyOps]
    rw [safeTrace] at hs
    exact ih (applyOp cs op) (twoLevel_applyOp cs op hs.1 h2) hs.2

/-- Witness for C1: a concrete reply-safe trace from the seeded state
stays two-level. -/
theorem safe_traces_preserve_two_level_witness :
    twoLevel (applyOps (seedComments 0)
      [Op.addReply 2 "maxblagun" "hi" currentUserSeed 5 0]) = true :=
  safe_traces_preserve_two_level (seedComments 0)
    [Op.addReply 2 "maxblagun" "hi" currentUserSeed 5 0]
    (by decide)
    ⟨(by decide :
        ((seedComments 0).any fun c => (c.replies.getD []).any fun r => r.id == 2) = false),
      trivial⟩

/-- Counterexample to C1 as stated: from the seeded state (which is
two-level), a single addReply whose parentId is 3 — the id of a reply —
produces a state that is no longer two-level: the reply with id 3 now
carries a replies sequence of its own. -/
theorem reply_to_reply_breaks_two_level :
    twoLevel (seedComments 0) = true
    ∧ twoLevel (applyOps (seedComments 0)
        [Op.addReply 3 "ramsesmiron" "hello" currentUserSeed 99 0]) = false := by
  constructor
  · decide
  · decide

/-- C2: `Utils.generateId` is `Date.now() + Math.floor(Math.random() *
1000)`, so two calls whose clock reading and random draw sum to the same
value return the same id; two `handleAddComment` calls with such draws
put two comments with the same id into the tree, contradicting the
claimed (and doc-commented) uniqueness. -/
theorem generateId_collision_duplicates_ids :
    generateId 1000 3 = generateId 1001 2
    ∧ ¬ (shallowIds (handleAddComment
          (handleAddComment [] "first comment" currentUserSeed 1000 3)
          "second comment" currentUserSeed 1001 2)).Nodup := by
  constructor
  · decide
  · decide

/-- Counterexample to C3 as stated: in the seeded state, parentId 3 does
not resolve to a top-level comment (it is a reply id), yet
`handleCreateReply` does not fail — it creates a comment and grows the
tree by one node. -/
theorem reply_to_nontoplevel_still_creates :
    ((seedComments 0).any fun c => c.id == 3) = false
    ∧ commentsSize (handleCreateReply (seedComments 0) 3 "ramsesmiron" "hello"
        currentUserSeed 99 0)
      = commentsSize (seedComments 0) + 1 := by
  constructor
  · decide
  · decide

/-- C3 (amended): `handleCreateReply` is a no-op exactly when parentId
matches nothing in the two-level scan; when parentId matches no reply
(so it can only resolve to a top-level comment or to nothing), the new
reply is appended at the end of the first matching top-level comment's
reply sequence, preserving insertion order — but a parentId resolving to
a reply appends beneath that reply instead. -/
theorem createReply_appends_or_rejects (cs : List Comment) (parentId : Int)
    (replyingTo content : String) (user : CUser) (now : Int) (rand : Nat) :
    (findComment cs parentId = none →
      handleCreateReply cs parentId replyingTo content user now rand = cs)
    ∧ ((cs.any fun c => (c.replies.getD []).any fun r => r.id == parentId) = false →
      handleCreateReply cs parentId replyingTo content user now rand
        = specAttachTop cs parentId (mkNewReply content user replyingTo now rand)) := by
  constructor
  · intro h
    simp only [handleCreateReply, h]
  · intro hsafe
    cases hfc : findComment cs parentId with
    | none =>
      have hocc := (findComment_eq_none_iff cs parentId).mp hfc
      rw [occursShallow] at hocc
      have htop : (cs.any fun c => c.id == parentId) = false := by
        rw [List.any_eq_false]
        intro x hx hpx
        exact (List.any_eq_false.mp hocc x hx) (by rw [hpx]; simp)
      simp only [handleCreateReply, hfc]
      rw [specAttachTop_of_absent cs parentId _ htop]
    | some c =>
      simp only [handleCreateReply, hfc]
      exact updateFound_attach_eq_spec cs parentId _ hsafe

/-- Witness for C3 (amended): replying to top-level comment 2 in the
seeded state appends at the end of its reply sequence. -/
theorem createReply_appends_or_rejects_witness :
    handleCreateReply (seedComments 0) 2 "maxblagun" "hi" currentUserSeed 5 0
      = specAttachTop (seedComments 0) 2 (mkNewReply "hi" currentUserSeed "maxblagun" 5 0) :=
  (createReply_appends_or_rejects (seedComments 0) 2 "maxblagun" "hi" currentUserSeed 5 0).2
    (by decide)

/-- C4: for a comment found in the (two-level) tree, an `'upvote'` raises
its score by exactly 1 and a `'downvote'` lowers it by 1 clamped at 0 —
a downvote at score 0 leaves 0 — and no vote ever makes any score in the
tree negative. Under the two-level data model, presence in the tree is
exactly success of `findComment` (see `occursInComments_eq_shallow` and
`findComment_eq_none_iff`). -/
theorem vote_increments_and_clamps (cs : List Comment) (commentId : Int) (c : Comment)
    (h2 : twoLevel cs = true)
    (hf : findComment cs commentId = some c) :
    findComment (handleVote cs commentId "upvote") commentId
      = some (c.withScore (c.score + 1))
    ∧ findComment (handleVote cs commentId "downvote") commentId
      = some (c.withScore (max 0 (c.score - 1)))
    ∧ ∀ action, scoresNonneg cs → scoresNonneg (handleVote cs commentId action) := by
  refine ⟨?_, ?_, fun action h => nonneg_handleVote cs commentId action h⟩
  · simp only [handleVote, hf,
      if_pos (by decide : (("upvote" : String) == "upvote") = true)]
    rw [find_updateFound cs commentId _ (fun c => Comment.withScore_id c _), hf]
    rfl
  · have hne : (("downvote" : String) == "upvote") = false := by decide
    simp only [handleVote, hf, hne, Bool.false_eq_true, if_false,
      if_pos (by decide : (("downvote" : String) == "downvote") = true)]
    rw [find_updateFound cs commentId _ (fun c => Comment.withScore_id c _), hf]
    rfl

/-- Witness for C4: upvoting reply 4 (score 2) in the seeded state makes
its score 3. -/
theorem vote_increments_and_clamps_witness :
    findComment (handleVote (seedComments 0) 4 "upvote") 4
      = some ((seedReply4 0).withScore ((seedReply4 0).score + 1)) :=
  (vote_increments_and_clamps (seedComments 0) 4 (seedReply4 0) (by decide) rfl).1

/-- C5: deleting an id absent from the entire tree (at any depth) leaves
the state exactly unchanged, both through the full
`handleDeleteConfirm` path and through `removeComment` itself. -/
theorem remove_absent_id_noop (cs : List Comment) (commentId : Int)
    (h : occursInComments commentId cs = false) :
    handleDeleteConfirm cs commentId = cs ∧ removeComment cs commentId = cs := by
  have hsh := shallow_eq_false_of_deep cs commentId h
  have hrm := removeComment_of_absent cs commentId hsh
  refine ⟨?_, hrm⟩
  rw [handleDeleteConfirm]
  by_cases h0 : (commentId == 0) = true
  · rw [if_pos h0]
  · rw [if_neg h0, findComment_eq_none cs commentId hsh]

/-- Witness for C5: removing the absent id 99 from the seeded state is a
no-op. -/
theorem remove_absent_id_noop_witness :
    handleDeleteConfirm (seedComments 0) 99 = seedComments 0
    ∧ removeComment (seedComments 0) 99 = seedComments 0 :=
  remove_absent_id_noop (seedComments 0) 99 (by decide)

/-- C6: on a two-level tree with no id collisions, removing a present id
removes exactly the matched node — top-level sequence checked first, the
first reply match otherwise. Removing a top-level comment `c` discards
its reply sequence with it, so the total node count drops by
`1 + c.replies.length`; removing a reply drops it by exactly 1; and the
removed id no longer occurs anywhere afterwards. -/
theorem remove_present_id_counts (cs : List Comment) (commentId : Int)
    (h2 : twoLevel cs = true) (hu : (shallowIds cs).Nodup) :
    (∀ c, cs.find? (fun x => x.id == commentId) = some c →
      commentsSize (removeComment cs commentId) + 1 + (c.replies.getD []).length
        = commentsSize cs)
    ∧ ((cs.any fun c => c.id == commentId) = false →
      (cs.any fun c => (c.replies.getD []).any fun r => r.id == commentId) = true →
      commentsSize (removeComment cs commentId) + 1 = commentsSize cs)
    ∧ occursInComments commentId (removeComment cs commentId) = false := by
  refine ⟨?_, ?_, ?_⟩
  · intro c hc
    have hp := List.find?_some hc
    have htop : (cs.any fun x => x.id == commentId) = true :=
      List.any_eq_true.mpr ⟨c, List.mem_of_find?_eq_some hc, hp⟩
    rw [removeComment, if_pos htop]
    exact size_removeFirstById cs commentId c h2 hc
  · intro htop hrep
    rw [removeComment, if_neg (by rw [htop]; simp)]
    exact size_removeFromReplies cs commentId h2 hrep
  · rw [occursInComments_eq_shallow commentId _ (twoLevel_removeComment cs commentId h2)]
    exact noShallow_removeComment cs commentId hu

/-- Witness for C6: removing top-level comment 2 (which owns 2 replies)
from the seeded 4-node tree leaves 1 node: the size drops by 3. -/
theorem remove_present_id_counts_witness :
    commentsSize (removeComment (seedComments 0) 2) + 1
        + ((seedComment2 0).replies.getD []).length
      = commentsSize (seedComments 0) :=
  (remove_present_id_counts (seedComments 0) 2 (by decide) (by decide)).1
    (seedComment2 0) rfl

/-- C10: a comment nested deeper than the two levels `findComment` scans
is invisible to every lookup-based operation: `findComment` reports its
id as not found, and vote, updateContent and remove with that id leave
the tree exactly unchanged. -/
theorem deep_nodes_invisible (cs : List Comment) (commentId : Int)
    (hdeep : occursInComments commentId cs = true)
    (hsh : occursShallow cs commentId = false) :
    findComment cs commentId = none
    ∧ (∀ action, handleVote cs commentId action = cs)
    ∧ (∀ content, handleUpdateComment cs commentId content = cs)
    ∧ removeComment cs commentId = cs
    ∧ handleDeleteConfirm cs commentId = cs := by
  have hfc := findComment_eq_none cs commentId hsh
  refine ⟨hfc, ?_, ?_, removeComment_of_absent cs commentId hsh, ?_⟩
  · intro action
    simp only [handleVote, hfc]
  · intro content
    simp only [handleUpdateComment, hfc]
  · rw [handleDeleteConfirm]
    by_cases h0 : (commentId == 0) = true
    · rw [if_pos h0]
    · rw [if_neg h0, hfc]

/-- Witness for C10: in a tree holding a depth-3 node with id 99, that id
is reported not found. -/
theorem deep_nodes_invisible_witness :
    findComment [Comment.mk 1 "top" "t1" 0 currentUserSeed none
      (some [Comment.mk 2 "reply" "t2" 0 currentUserSeed (some "juliusomo")
        (some [Comment.mk 99 "deep" "t3" 0 currentUserSeed (some "juliusomo") none])])] 99
      = none :=
  (deep_nodes_invisible _ 99 (by decide) (by decide)).1

/-- C7: saving a shape-valid snapshot and immediately reading it back
yields exactly the same snapshot — same ids, contents, scores, sequence
orders and current user (`JSON.parse ∘ JSON.stringify` is the identity on
these JSON values, so the blob cell is modelled as holding the value). -/
theorem restore_snapshot_roundtrip (d : JVal) (stored : Option JVal) (now : Int)
    (h : validateData d = true) :
    getData (saveData d stored).1 now = d := by
  simp [saveData, getData, h]

/-- Witness for C7: the hardcoded default snapshot round-trips. -/
theorem restore_snapshot_roundtrip_witness :
    getData (saveData (initialDataJ 0) none).1 0 = initialDataJ 0 :=
  restore_snapshot_roundtrip (initialDataJ 0) none 0 (by decide)

/-- Counterexample to C8 as stated: a snapshot whose `username` is the
number `5` passes `Storage.validateData` (JavaScript truthiness) although
it does not carry a non-empty username string, so the claimed
characterisation's only-if direction fails. -/
theorem validate_truthiness_counterexample :
    validateData (JVal.obj [("currentUser", JVal.obj [("username", JVal.num 5)]),
        ("comments", JVal.arr [])]) = true
    ∧ specValidSnapshot (JVal.obj [("currentUser", JVal.obj [("username", JVal.num 5)]),
        ("comments", JVal.arr [])]) = false := by
  constructor
  · decide
  · decide

/-- C8 (amended): a candidate passes `Storage.validateData` iff it is an
object whose `currentUser` is an object (or array) with a truthy
`username` — for string usernames exactly the non-empty ones, but truthy
non-strings also pass — and whose `comments` is an array (possibly
empty). Validation ignores the elements of `comments` entirely, and the
same `validateData` governs both the load path (`getData`) and the
restore path (`importData`). -/
theorem validateData_characterization (d : JVal) (stored : Option JVal) (now : Int)
    (fields : List (String × JVal)) (xs ys : List JVal) :
    validateData d = specValidSnapshotAmended d
    ∧ validateData (setField (JVal.obj fields) "comments" (JVal.arr xs))
        = validateData (setField (JVal.obj fields) "comments" (JVal.arr ys))
    ∧ (importData (some d) stored).2 = validateData d
    ∧ getData (some d) now = (if validateData d then d else initialDataJ now) := by
  refine ⟨validateData_eq_amended d, ?_, ?_, ?_⟩
  · have hne : (("currentUser" : String) == "comments") = false := by decide
    simp only [validateData, setField,
      getField_setField_same fields "comments" (JVal.arr xs),
      getField_setField_same fields "comments" (JVal.arr ys),
      getField_setField_ne fields "comments" "currentUser" (JVal.arr xs) hne,
      getField_setField_ne fields "comments" "currentUser" (JVal.arr ys) hne]
    rfl
  · by_cases h : validateData d = true
    · simp [importData, saveData, h]
    · simp [importData, eq_false_of_ne_true h]
  · by_cases h : validateData d = true
    · simp [getData, h]
    · simp [getData, eq_false_of_ne_true h]

/-- Counterexample to C9 as stated: with a shape-valid stored snapshot
that has an empty comment sequence (forcing the seed path) and a fetched
seed lacking a user object, the composite load returns a shape-invalid
snapshot — the seed is never validated. -/
theorem loadData_unvalidated_seed_counterexample :
    validateData (JVal.obj [("currentUser", JVal.obj [("username", JVal.str "u")]),
        ("comments", JVal.arr [])]) = true
    ∧ validateData (loadData
        (some (JVal.obj [("currentUser", JVal.obj [("username", JVal.str "u")]),
          ("comments", JVal.arr [])]))
        (some (JVal.obj [("comments", JVal.arr [])])) 0 1) = false := by
  constructor
  · decide
  · decide

/-- C9 (amended): the composite load never throws and behaves as
follows — a shape-valid stored blob with a non-empty comment sequence is
returned as-is; an absent or shape-invalid blob falls back directly to
the hardcoded default (the bundled seed is not consulted at that point),
which is shape-valid; the seed is fetched only when the chosen snapshot
has an empty comment sequence, and on that path the fetched seed is
returned without shape validation (the counterexample shows the result
can then be shape-invalid). -/
theorem loadData_characterization (stored seed : Option JVal) (now : Int) (fuel : Nat) :
    validateData (getData stored now) = true
    ∧ loadData none seed now fuel = initialDataJ now
    ∧ (∀ d, stored = some d → validateData d = false →
        loadData stored seed now fuel = initialDataJ now)
    ∧ (∀ d xs, stored = some d → validateData d = true →
        getField d "comments" = JVal.arr xs →
        (xs.length ≠ 0 → loadData stored seed now fuel = d)
        ∧ (xs.length = 0 → loadData stored seed now fuel = loadInitialData seed now fuel)) := by
  have hinit : validateData (initialDataJ now) = true := rfl
  have hgfinit : getField (initialDataJ now) "comments" = JVal.arr (initialCommentsJ now) := rfl
  refine ⟨?_, ?_, ?_, ?_⟩
  · cases stored with
    | none => exact hinit
    | some d =>
      by_cases h : validateData d = true
      · simp [getData, h]
      · simp [getData, eq_false_of_ne_true h]
        exact hinit
  · simp only [loadData, getData, hgfinit]
    have hlen : ((initialCommentsJ now).length == 0) = false := rfl
    rw [hlen]
    simp
  · intro d hd hv
    subst hd
    simp only [loadData, getData, hv, Bool.false_eq_true, if_false, hgfinit]
    have hlen : ((initialCommentsJ now).length == 0) = false := rfl
    rw [hlen]
    simp
  · intro d xs hd hv hcm
    subst hd
    constructor
    · intro hne
      have hlen : (xs.length == 0) = false := by
        cases hb : (xs.length == 0) with
        | false => rfl
        | true => exact absurd (by simpa using hb) hne
      simp only [loadData, getData, hv, if_true, hcm, hlen, Bool.false_eq_true, if_false]
    · intro heq
      have hlen : (xs.length == 0) = true := by simpa using heq
      simp only [loadData, getData, hv, if_true, hcm, hlen]

/-- Witness for C9 (amended): a valid stored snapshot with a non-empty
comment sequence is returned as-is. -/
theorem loadData_characterization_witness :
    loadData (some (initialDataJ 0)) none 0 1 = initialDataJ 0 :=
  ((loadData_characterization (some (initialDataJ 0)) none 0 1).2.2.2
    (initialDataJ 0) (initialCommentsJ 0) rfl (by decide) rfl).1 (by decide)
